import Mathlib

/-!
Verification of the `embargo` repository's worker-pool core
(`src/test_apps/cpp_app/include/utils.hpp`, class `app::utils::ThreadPool`)
and of the exit-code mapping of `Application::run`
(`src/test_apps/cpp_app/src/main.cpp`, lines 295-319).

The header `utils.hpp` declares the pool's state
(`workers_ : std::vector<std::thread>`, `tasks_ : std::queue<std::function<void()>>`,
`queue_mutex_`, `condition_`, `stop_ : bool`) and its operations
(constructor with default `std::thread::hardware_concurrency()`, destructor,
`enqueue`, `size()`, `wait_for_completion`).  The member-function bodies other
than `size()` are not part of the repository's sources; they are modelled from
the specification (spec.md sections 3-7), as noted on each definition.

Concurrency is embedded as an interleaving state machine: the mutex makes
queue operations atomic, so each lock-protected critical section is one step.
Handle resolution, submission order and completion order are recorded as
history fields of the state.
-/

namespace Embargo

/-- Result of running a task body: either the returned value or the message of
the exception the body raised (the worker catches it via the packaged task). -/
abbrev TaskResult (α : Type) := Except String α

/-- State of a `std::future` result handle: pending until the worker publishes
either the value or the captured failure; terminal once set. -/
inductive HandleState (α : Type) where
  | pending
  | fulfilled (v : α)
  | failed (e : String)
deriving DecidableEq

/-- State of one worker thread of `workers_`: blocked/idle waiting on
`condition_`, executing a claimed task, or exited from its loop. -/
inductive WorkerState (α : Type) where
  | idle
  | busy (id : Nat) (body : Unit → TaskResult α)
  | exited

/-- Errors of the submission API: `PoolClosed` is raised by `enqueue` after
shutdown has been initiated. -/
inductive PoolError where
  | poolClosed
deriving DecidableEq

/-- Shallow embedding of `app::utils::ThreadPool` (utils.hpp lines 192-209).
`workers_`, `tasks_` and `stop_` are the members of the C++ class; `handles`
records every result handle ever created (handle ids are indices), and
`submitted` / `completed` are history variables recording the order of
submissions and of task completions. -/
structure PoolState (α : Type) where
  workers_ : List (WorkerState α)
  tasks_ : List (Nat × (Unit → TaskResult α))
  stop_ : Bool
  handles : List (HandleState α)
  submitted : List Nat
  completed : List Nat

/-- Modelled from the spec: construction contract (spec.md section 4.2),
"given a requested thread count (default: the number of available hardware
execution units, minimum 1), start exactly that many worker threads
immediately".  `hw` stands for the value of
`std::thread::hardware_concurrency()`; the constructor body is not in the
repository's sources. -/
def ThreadPool.make (α : Type) (threadCount : Option Nat) (hw : Nat) : PoolState α :=
  { workers_ := List.replicate (threadCount.getD (max hw 1)) WorkerState.idle
    tasks_ := []
    stop_ := false
    handles := []
    submitted := []
    completed := [] }

/-- Write a task's outcome into its result handle (`std::promise::set_value`
or storing the caught exception). -/
def publish {α : Type} (handles : List (HandleState α)) (id : Nat) (r : TaskResult α) :
    List (HandleState α) :=
  handles.set id (match r with
    | Except.ok v => HandleState.fulfilled v
    | Except.error e => HandleState.failed e)

/-- Modelled from the spec: `ThreadPool::enqueue` (declared at utils.hpp lines
204-205, body not in the repository's sources).  Per spec.md section 4.2 it
"synchronously wraps the callable with a fresh Result Handle, pushes the pair
onto the Task Queue, returns the handle immediately", and "calling `enqueue`
after shutdown has been initiated is rejected - it fails immediately with a
pool closed error". -/
def ThreadPool.enqueue {α : Type} (st : PoolState α) (f : Unit → TaskResult α) :
    Except PoolError (PoolState α × Nat) :=
  if st.stop_ then Except.error PoolError.poolClosed
  else
    let h := st.handles.length
    Except.ok
      ({ st with
          tasks_ := st.tasks_ ++ [(h, f)]
          handles := st.handles ++ [HandleState.pending]
          submitted := st.submitted ++ [h] }, h)

/-- `ThreadPool::size` (utils.hpp line 207): `return workers_.size();`. -/
def ThreadPool.size {α : Type} (st : PoolState α) : Nat :=
  st.workers_.length

/-- Number of worker threads that have not yet exited their loop. -/
def liveWorkers {α : Type} (st : PoolState α) : Nat :=
  st.workers_.countP (fun w => match w with
    | WorkerState.exited => false
    | _ => true)

/-- Atomic interleaving actions of the pool's threads.  `enqueue` is a
submitter's call; `claimTask w` is worker `w` popping the queue front inside
the lock; `completeTask w` is worker `w` finishing its claimed task and
publishing the outcome; `exitWorker w` is worker `w` observing the shutdown
flag with an empty queue and leaving its loop; `setStopFlag` flips `stop_`
under the lock. -/
inductive Action (α : Type) where
  | enqueue (f : Unit → TaskResult α)
  | claimTask (w : Nat)
  | completeTask (w : Nat)
  | exitWorker (w : Nat)
  | setStopFlag

/-- Modelled from the spec: one atomic step of the worker-pool state machine
(spec.md sections 4.1-4.2; the worker-loop body is not in the repository's
sources).  Actions whose guard does not hold leave the state unchanged. -/
def step {α : Type} (st : PoolState α) : Action α → PoolState α
  | Action.enqueue f =>
      match ThreadPool.enqueue st f with
      | Except.ok (st2, _) => st2
      | Except.error _ => st
  | Action.claimTask w =>
      match st.workers_[w]?, st.tasks_ with
      | some WorkerState.idle, (id, f) :: rest =>
          { st with
              workers_ := st.workers_.set w (WorkerState.busy id f)
              tasks_ := rest }
      | _, _ => st
  | Action.completeTask w =>
      match st.workers_[w]? with
      | some (WorkerState.busy id f) =>
          { st with
              workers_ := st.workers_.set w WorkerState.idle
              handles := publish st.handles id (f ())
              completed := st.completed ++ [id] }
      | _ => st
  | Action.exitWorker w =>
      match st.workers_[w]?, st.tasks_, st.stop_ with
      | some WorkerState.idle, [], true =>
          { st with workers_ := st.workers_.set w WorkerState.exited }
      | _, _, _ => st
  | Action.setStopFlag => { st with stop_ := true }

/-- Run a sequence of atomic actions (one interleaved execution). -/
def runTrace {α : Type} (st : PoolState α) (tr : List (Action α)) : PoolState α :=
  tr.foldl step st

/-- Ids of the tasks currently claimed by busy workers, in worker order. -/
def busyIds {α : Type} : List (WorkerState α) → List Nat
  | [] => []
  | WorkerState.busy id _ :: ws => id :: busyIds ws
  | _ :: ws => busyIds ws

/-- Complete the claimed task of every busy worker, in worker order
(used by the shutdown model: in-flight work finishes before joining). -/
def finishBusyGo {α : Type} :
    List (WorkerState α) → List (HandleState α) → List Nat →
      List (WorkerState α) × List (HandleState α) × List Nat
  | [], hs, comp => ([], hs, comp)
  | WorkerState.busy id f :: ws, hs, comp =>
      let r := finishBusyGo ws (publish hs id (f ())) (comp ++ [id])
      (WorkerState.idle :: r.1, r.2.1, r.2.2)
  | w :: ws, hs, comp =>
      let r := finishBusyGo ws hs comp
      (w :: r.1, r.2.1, r.2.2)

/-- Drain the task queue in FIFO order, publishing each outcome
(spec.md section 4.2, shutdown step 2). -/
def drainGo {α : Type} :
    List (Nat × (Unit → TaskResult α)) → List (HandleState α) → List Nat →
      List (HandleState α) × List Nat
  | [], hs, comp => (hs, comp)
  | (id, f) :: ts, hs, comp => drainGo ts (publish hs id (f ())) (comp ++ [id])

/-- Whether a worker has exited its loop. -/
def WorkerState.isExited {α : Type} : WorkerState α → Bool
  | WorkerState.exited => true
  | _ => false

/-- Modelled from the spec: the blocking shutdown protocol run by
`ThreadPool::~ThreadPool` (declared at utils.hpp line 202, body not in the
repository's sources).  Per spec.md section 4.2: flip the shutdown flag and
wake all workers; workers drain in-flight and queued items in FIFO order
before exiting; join all worker threads, so on return every worker has
exited.  If no live worker remains, only the flag is flipped. -/
def ThreadPool.shutdown {α : Type} (st : PoolState α) : PoolState α :=
  if st.workers_.all WorkerState.isExited then { st with stop_ := true }
  else
    let fb := finishBusyGo st.workers_ st.handles st.completed
    let dr := drainGo st.tasks_ fb.2.1 fb.2.2
    { workers_ := fb.1.map (fun _ => WorkerState.exited)
      tasks_ := []
      stop_ := true
      handles := dr.1
      submitted := st.submitted
      completed := dr.2 }

/-- Dynamic type of an exception thrown out of the try-block of
`Application::run` (main.cpp lines 295-319).  `DatabaseError` and
`ValidationError` are the custom classes of models.hpp (lines 15-37), each
deriving `std::exception` directly; the remaining constructors stand for the
other `std::exception`-derived types the program can throw. -/
inductive CppExceptionKind where
  | databaseError
  | validationError
  | stdRuntimeError
  | stdLogicError
  | stdBadAlloc
deriving DecidableEq

/-- The catch clauses appearing in `Application::run`, in source order. -/
inductive CatchClause where
  | catchDatabaseError
  | catchValidationError
  | catchStdException
deriving DecidableEq

/-- C++ catch matching: a clause handles an exception whose dynamic type is
the clause's type or derives from it.  All modelled kinds derive
`std::exception`; `DatabaseError` and `ValidationError` are unrelated leaf
classes (models.hpp lines 15-37). -/
def clauseCatches : CatchClause → CppExceptionKind → Bool
  | CatchClause.catchDatabaseError, CppExceptionKind.databaseError => true
  | CatchClause.catchDatabaseError, _ => false
  | CatchClause.catchValidationError, CppExceptionKind.validationError => true
  | CatchClause.catchValidationError, _ => false
  | CatchClause.catchStdException, _ => true

/-- First matching catch clause wins (C++ semantics: clauses tried in source
order); `none` means the exception propagates out of the function. -/
def runCatchClauses : List (CatchClause × Int) → CppExceptionKind → Option Int
  | [], _ => none
  | (c, code) :: rest, e =>
      if clauseCatches c e then some code else runCatchClauses rest e

/-- The handler list of `Application::run` in source order with the return
code of each handler body (main.cpp lines 309-318). -/
def Application.runHandlers : List (CatchClause × Int) :=
  [(CatchClause.catchDatabaseError, 2),
   (CatchClause.catchValidationError, 3),
   (CatchClause.catchStdException, 1)]

/-- Outcome of the try-block of `Application::run`: the body ran to
completion, or an exception of the given dynamic type escaped it. -/
inductive RunOutcome where
  | completed
  | threw (e : CppExceptionKind)
deriving DecidableEq

/-- `Application::run` (main.cpp lines 295-319): return 0 on completion,
otherwise dispatch the escaped exception through the catch clauses. -/
def Application.run : RunOutcome → Option Int
  | RunOutcome.completed => some 0
  | RunOutcome.threw e => runCatchClauses Application.runHandlers e

/-- Whether a worker is currently executing a claimed task. -/
def WorkerState.isBusy {α : Type} : WorkerState α → Bool
  | WorkerState.busy _ _ => true
  | _ => false

/-- Multiset of task ids currently accounted for by the pool: completed,
claimed by a busy worker, or still queued. -/
def ledger {α : Type} (st : PoolState α) : List Nat :=
  st.completed ++ busyIds st.workers_ ++ st.tasks_.map Prod.fst

/-- Single-worker FIFO invariant: the submission order is exactly the
completion order, then the claimed task, then the queue. -/
def fifoInv {α : Type} (st : PoolState α) : Prop :=
  st.submitted = ledger st

/-- Exactly-once invariant: the ledger is a permutation of the submission
history, submissions are pairwise distinct, and all ids are valid handles. -/
def onceInv {α : Type} (st : PoolState α) : Prop :=
  List.Perm st.submitted (ledger st) ∧ st.submitted.Nodup ∧
    ∀ id ∈ ledger st, id < st.handles.length

/-- Result string of task `i` of the concurrent-operations scenario
(main.cpp line 543). -/
def taskMessage (i : Nat) : String :=
  "Task " ++ toString i ++ " completed"

/-- Body of task `i` of `Application::run_concurrent_operations`
(main.cpp lines 539-546); the sleep has no observable effect here. -/
def scenarioBody (i : Nat) : Unit → TaskResult String :=
  fun _ => Except.ok (taskMessage i)

/-- The 10 submissions of `run_concurrent_operations` (main.cpp line 538). -/
def scenarioSubmit : List (Action String) :=
  (List.range 10).map (fun i => Action.enqueue (scenarioBody i))

/-- One interleaved execution of the 10 tasks across the 4 workers. -/
def scenarioExecute : List (Action String) :=
  ((List.range 10).map
    (fun i => [Action.claimTask (i % 4), Action.completeTask (i % 4)])).flatten

/-- Final pool state of the scenario: pool of 4 workers, 10 tasks submitted
and all executed. -/
def scenarioFinal : PoolState String :=
  runTrace (runTrace (ThreadPool.make String (some 4) 8) scenarioSubmit) scenarioExecute

/-- A pool whose shutdown has been initiated, used as a concrete input. -/
def closedPool : PoolState String :=
  { workers_ := [WorkerState.exited]
    tasks_ := []
    stop_ := true
    handles := [HandleState.pending]
    submitted := [0]
    completed := [] }

/-- A concrete task body returning `"hi"`. -/
def okBody : Unit → TaskResult String :=
  fun _ => Except.ok "hi"

/-- A concrete task body raising a failure. -/
def failBody : Unit → TaskResult String :=
  fun _ => Except.error "boom"

/-- A concrete pool whose single worker is executing task 0 (body `okBody`). -/
def busyPool : PoolState String :=
  { workers_ := [WorkerState.busy 0 okBody]
    tasks_ := []
    stop_ := false
    handles := [HandleState.pending]
    submitted := [0]
    completed := [] }

/-- A concrete pool whose worker 0 is executing the failing task 0 while the
successful task 1 is still queued. -/
def failThenOkPool : PoolState String :=
  { workers_ := [WorkerState.busy 0 failBody, WorkerState.idle]
    tasks_ := [(1, okBody)]
    stop_ := false
    handles := [HandleState.pending, HandleState.pending]
    submitted := [0, 1]
    completed := [] }

/-- A concrete pool with 2 idle workers and 3 queued-but-not-started tasks,
about to be shut down (spec.md section 8, drain scenario). -/
def drainPool : PoolState String :=
  { workers_ := [WorkerState.idle, WorkerState.idle]
    tasks_ := [(0, scenarioBody 0), (1, scenarioBody 1), (2, scenarioBody 2)]
    stop_ := false
    handles := [HandleState.pending, HandleState.pending, HandleState.pending]
    submitted := [0, 1, 2]
    completed := [] }

/-! ## Helper lemmas -/

theorem workers_length_step {α : Type} (st : PoolState α) (a : Action α) :
    (step st a).workers_.length = st.workers_.length := by
  cases a with
  | enqueue f =>
      by_cases h : st.stop_ <;> simp [step, ThreadPool.enqueue, h]
  | claimTask w =>
      simp only [step]
      split <;> simp [List.length_set]
  | completeTask w =>
      simp only [step]
      split <;> simp [List.length_set]
  | exitWorker w =>
      simp only [step]
      split <;> simp [List.length_set]
  | setStopFlag => rfl

theorem workers_length_runTrace {α : Type} (tr : List (Action α)) (st : PoolState α) :
    (runTrace st tr).workers_.length = st.workers_.length := by
  induction tr generalizing st with
  | nil => rfl
  | cons a tr ih =>
      simp only [runTrace, List.foldl_cons] at *
      rw [ih (step st a), workers_length_step]

theorem finishBusyGo_fst_length {α : Type} (ws : List (WorkerState α))
    (hs : List (HandleState α)) (comp : List Nat) :
    (finishBusyGo ws hs comp).1.length = ws.length := by
  induction ws generalizing hs comp with
  | nil => rfl
  | cons w ws ih =>
      cases w <;> simp [finishBusyGo, ih]

theorem workers_length_shutdown {α : Type} (st : PoolState α) :
    (ThreadPool.shutdown st).workers_.length = st.workers_.length := by
  unfold ThreadPool.shutdown
  split
  · rfl
  · simp [finishBusyGo_fst_length]

/-! ## Claim theorems -/

/-- Claim C10: `Application::run` maps outcomes to exit codes
deterministically: 0 when the run completes without an exception, 2 when a
`DatabaseError` escapes, 3 when a `ValidationError` escapes, and 1 for any
other `std::exception`. -/
theorem application_run_exit_codes :
    ∀ o : RunOutcome,
      Application.run o = some (match o with
        | RunOutcome.completed => 0
        | RunOutcome.threw CppExceptionKind.databaseError => 2
        | RunOutcome.threw CppExceptionKind.validationError => 3
        | RunOutcome.threw _ => 1) := by
  intro o
  cases o with
  | completed => rfl
  | threw e => cases e <;> rfl

/-- Claim C2: every `enqueue` after shutdown has been initiated (the `stop_`
flag is set) fails immediately with the `PoolClosed` error and changes
nothing: no work is silently queued. -/
theorem enqueue_after_shutdown_poolClosed {α : Type} (st : PoolState α)
    (f : Unit → TaskResult α) (h : st.stop_ = true) :
    ThreadPool.enqueue st f = Except.error PoolError.poolClosed ∧
      step st (Action.enqueue f) = st := by
  refine ⟨?_, ?_⟩
  · simp [ThreadPool.enqueue, h]
  · simp [step, ThreadPool.enqueue, h]

/-- Concrete instance of `enqueue_after_shutdown_poolClosed`: submitting to a
shut-down one-worker pool is rejected. -/
theorem enqueue_after_shutdown_poolClosed_witness :
    closedPool.stop_ = true ∧
      (ThreadPool.enqueue closedPool okBody = Except.error PoolError.poolClosed ∧
        step closedPool (Action.enqueue okBody) = closedPool) :=
  ⟨rfl, enqueue_after_shutdown_poolClosed closedPool okBody rfl⟩

/-- Claim C7: with no explicit thread count the pool starts as many workers
as there are hardware execution units; in every case (default included) it
starts at least 1 worker, exactly the requested count, and all of them exist
and are started (idle in their loop) immediately at construction. -/
theorem threadpool_construction_worker_count :
    (∀ (α : Type) (hw : Nat), 1 ≤ hw →
        ThreadPool.size (ThreadPool.make α none hw) = hw) ∧
    (∀ (α : Type) (n hw : Nat),
        ThreadPool.size (ThreadPool.make α (some n) hw) = n) ∧
    (∀ (α : Type) (hw : Nat), 1 ≤ ThreadPool.size (ThreadPool.make α none hw)) ∧
    (∀ (α : Type) (n hw : Nat), 1 ≤ n →
        1 ≤ ThreadPool.size (ThreadPool.make α (some n) hw)) ∧
    (∀ (α : Type) (tc : Option Nat) (hw : Nat) (w : WorkerState α),
        w ∈ (ThreadPool.make α tc hw).workers_ → w = WorkerState.idle) := by
  refine ⟨?_, ?_, ?_, ?_, ?_⟩
  · intro α hw h
    simp [ThreadPool.size, ThreadPool.make]
    omega
  · intro α n hw
    simp [ThreadPool.size, ThreadPool.make]
  · intro α hw
    simp [ThreadPool.size, ThreadPool.make]
  · intro α n hw h
    simp [ThreadPool.size, ThreadPool.make]
    omega
  · intro α tc hw w hmem
    exact List.eq_of_mem_replicate hmem

/-- Concrete instance of `threadpool_construction_worker_count`: a default
pool on 8 hardware units has 8 workers, an explicit 4-thread pool has 4. -/
theorem threadpool_construction_worker_count_witness :
    (1 ≤ 8 ∧ ThreadPool.size (ThreadPool.make String none 8) = 8) ∧
      ThreadPool.size (ThreadPool.make String (some 4) 8) = 4 :=
  ⟨⟨by decide, threadpool_construction_worker_count.1 String 8 (by decide)⟩,
    threadpool_construction_worker_count.2.1 String 4 8⟩

/-- Claim C8: `ThreadPool::size` always reports the worker count fixed at
construction: no atomic action of the pool, no full shutdown, and no trace of
actions changes the value `size()` reports. -/
theorem threadpool_size_fixed :
    (∀ (α : Type) (st : PoolState α) (a : Action α),
        ThreadPool.size (step st a) = ThreadPool.size st) ∧
    (∀ (α : Type) (st : PoolState α),
        ThreadPool.size (ThreadPool.shutdown st) = ThreadPool.size st) ∧
    (∀ (α : Type) (tc : Option Nat) (hw : Nat) (tr : List (Action α)),
        ThreadPool.size (runTrace (ThreadPool.make α tc hw) tr) =
          ThreadPool.size (ThreadPool.make α tc hw)) := by
  refine ⟨?_, ?_, ?_⟩
  · intro α st a
    exact workers_length_step st a
  · intro α st
    exact workers_length_shutdown st
  · intro α tc hw tr
    exact workers_length_runTrace tr _

theorem step_all_exited {α : Type} (st : PoolState α)
    (hall : ∀ w ∈ st.workers_, w.isExited = true) (a : Action α) :
    (step st a).completed = st.completed ∧
      ∀ w ∈ (step st a).workers_, w.isExited = true := by
  cases a with
  | enqueue f =>
      by_cases h : st.stop_ <;> simp [step, ThreadPool.enqueue, h] <;> exact hall
  | claimTask w =>
      simp only [step]
      split
      · rename_i id f rest heq _
        have := hall _ (List.getElem?_mem heq)
        simp [WorkerState.isExited] at this
      · exact ⟨rfl, hall⟩
  | completeTask w =>
      simp only [step]
      split
      · rename_i id f heq
        have := hall _ (List.getElem?_mem heq)
        simp [WorkerState.isExited] at this
      · exact ⟨rfl, hall⟩
  | exitWorker w =>
      simp only [step]
      split
      · rename_i heq _ _
        have := hall _ (List.getElem?_mem heq)
        simp [WorkerState.isExited] at this
      · exact ⟨rfl, hall⟩
  | setStopFlag => exact ⟨rfl, hall⟩

theorem runTrace_all_exited {α : Type} (tr : List (Action α)) (st : PoolState α)
    (hall : ∀ w ∈ st.workers_, w.isExited = true) :
    (runTrace st tr).completed = st.completed := by
  induction tr generalizing st with
  | nil => rfl
  | cons a tr ih =>
      simp only [runTrace, List.foldl_cons] at *
      rw [ih (step st a) (step_all_exited st hall a).2, (step_all_exited st hall a).1]

theorem shutdown_workers_exited {α : Type} (st : PoolState α) :
    ∀ w ∈ (ThreadPool.shutdown st).workers_, w.isExited = true := by
  unfold ThreadPool.shutdown
  split
  · rename_i hall
    intro w hw
    exact List.all_eq_true.mp hall w hw
  · intro w hw
    rcases List.mem_map.mp hw with ⟨w0, _, rfl⟩
    rfl

theorem liveWorkers_eq_zero_of_all_exited {α : Type} (st : PoolState α)
    (hall : ∀ w ∈ st.workers_, w.isExited = true) : liveWorkers st = 0 := by
  unfold liveWorkers
  rw [List.countP_eq_zero]
  intro w hw
  have := hall w hw
  cases w <;> simp_all [WorkerState.isExited]

/-- Claim C9: after `shutdown()` returns there are zero live worker threads,
and no further task runs under any continuation of the execution, even if one
was somehow still queued (the completion history never grows again). -/
theorem shutdown_kills_all_workers_and_stops_execution :
    ∀ (α : Type) (st : PoolState α) (tr : List (Action α)),
      liveWorkers (ThreadPool.shutdown st) = 0 ∧
        (runTrace (ThreadPool.shutdown st) tr).completed =
          (ThreadPool.shutdown st).completed := by
  intro α st tr
  refine ⟨liveWorkers_eq_zero_of_all_exited _ (shutdown_workers_exited st), ?_⟩
  exact runTrace_all_exited tr _ (shutdown_workers_exited st)

theorem busyIds_nil {α : Type} : busyIds ([] : List (WorkerState α)) = [] := rfl

theorem busyIds_cons_idle {α : Type} (ws : List (WorkerState α)) :
    busyIds (WorkerState.idle :: ws) = busyIds ws := rfl

theorem busyIds_cons_exited {α : Type} (ws : List (WorkerState α)) :
    busyIds (WorkerState.exited :: ws) = busyIds ws := rfl

theorem busyIds_cons_busy {α : Type} (ws : List (WorkerState α)) (id : Nat)
    (f : Unit → TaskResult α) :
    busyIds (WorkerState.busy id f :: ws) = id :: busyIds ws := rfl

theorem finishBusyGo_completed {α : Type} (ws : List (WorkerState α))
    (hs : List (HandleState α)) (comp : List Nat) :
    (finishBusyGo ws hs comp).2.2 = comp ++ busyIds ws := by
  induction ws generalizing hs comp with
  | nil => simp [finishBusyGo, busyIds_nil]
  | cons w ws ih =>
      cases w with
      | idle => simp [finishBusyGo, busyIds_cons_idle, ih]
      | busy id f => simp [finishBusyGo, busyIds_cons_busy, ih, List.append_assoc]
      | exited => simp [finishBusyGo, busyIds_cons_exited, ih]

theorem drainGo_spec {α : Type} (ts : List (Nat × (Unit → TaskResult α)))
    (hs : List (HandleState α)) (comp : List Nat) :
    (drainGo ts hs comp).2 = comp ++ ts.map Prod.fst := by
  induction ts generalizing hs comp with
  | nil => simp [drainGo]
  | cons t ts ih =>
      cases t with
      | mk id f => simp [drainGo, ih]

/-- Claim C3: when shutdown begins on a pool with at least one live worker,
no already-submitted work is discarded: each in-flight task finishes, every
work item still in the task queue at that moment is executed to completion in
FIFO order before the workers exit, the queue ends empty, and shutdown does
not return until every worker thread has exited. -/
theorem shutdown_drains_pending_work {α : Type} (st : PoolState α)
    (hlive : st.workers_.all WorkerState.isExited = false) :
    (ThreadPool.shutdown st).completed =
        st.completed ++ busyIds st.workers_ ++ st.tasks_.map Prod.fst ∧
      (ThreadPool.shutdown st).tasks_ = [] ∧
      liveWorkers (ThreadPool.shutdown st) = 0 := by
  refine ⟨?_, ?_, liveWorkers_eq_zero_of_all_exited _ (shutdown_workers_exited st)⟩
  · unfold ThreadPool.shutdown
    rw [if_neg (by simp [hlive])]
    simp [drainGo_spec, finishBusyGo_completed, List.append_assoc]
  · unfold ThreadPool.shutdown
    rw [if_neg (by simp [hlive])]

/-- Concrete instances of `shutdown_drains_pending_work`: shutting down a
pool with one task in flight and one still queued completes both in order,
and shutting down a pool with 3 queued-but-not-started tasks runs all 3 in
FIFO order; in both cases the queue ends empty and every worker is joined. -/
theorem shutdown_drains_pending_work_witness :
    (failThenOkPool.workers_.all WorkerState.isExited = false ∧
      (ThreadPool.shutdown failThenOkPool).completed = [0, 1] ∧
      (ThreadPool.shutdown failThenOkPool).tasks_ = [] ∧
      liveWorkers (ThreadPool.shutdown failThenOkPool) = 0) ∧
    (drainPool.workers_.all WorkerState.isExited = false ∧
      (ThreadPool.shutdown drainPool).completed = [0, 1, 2] ∧
      (ThreadPool.shutdown drainPool).tasks_ = [] ∧
      liveWorkers (ThreadPool.shutdown drainPool) = 0) := by
  have h1 := shutdown_drains_pending_work failThenOkPool rfl
  have h2 := shutdown_drains_pending_work drainPool rfl
  refine ⟨⟨rfl, ?_, h1.2.1, h1.2.2⟩, rfl, ?_, h2.2.1, h2.2.2⟩
  · rw [h1.1]
    rfl
  · rw [h2.1]
    rfl

theorem step_complete_eq {α : Type} (st : PoolState α) (w id : Nat)
    (f : Unit → TaskResult α)
    (hb : st.workers_[w]? = some (WorkerState.busy id f)) :
    step st (Action.completeTask w) =
      { st with
          workers_ := st.workers_.set w WorkerState.idle
          handles := publish st.handles id (f ())
          completed := st.completed ++ [id] } := by
  simp [step, hb]

theorem step_claim_eq {α : Type} (st : PoolState α) (w id : Nat)
    (f : Unit → TaskResult α) (rest : List (Nat × (Unit → TaskResult α)))
    (hw : st.workers_[w]? = some WorkerState.idle)
    (ht : st.tasks_ = (id, f) :: rest) :
    step st (Action.claimTask w) =
      { st with
          workers_ := st.workers_.set w (WorkerState.busy id f)
          tasks_ := rest } := by
  simp [step, hw, ht]

theorem publish_get? {α : Type} (hs : List (HandleState α)) (id : Nat)
    (r : TaskResult α) (hid : id < hs.length) :
    (publish hs id r)[id]? = some (match r with
      | Except.ok v => HandleState.fulfilled v
      | Except.error e => HandleState.failed e) := by
  unfold publish
  exact List.getElem?_set_eq_of_lt _ hid

set_option maxRecDepth 4096 in
/-- Claim C1: `enqueue` on an open pool synchronously wraps the callable with
a fresh (pending) result handle, pushes it onto the tail of the task queue,
and returns the handle with nothing executed yet; once a worker has executed
the task, a `get()` on the handle yields exactly the callable's return value.
Concretely, in a pool of 4 workers, the 10 tasks of
`run_concurrent_operations` resolve each handle to its respective
`"Task i completed"` string. -/
theorem enqueue_returns_handle_resolving_to_result :
    (∀ (α : Type) (st : PoolState α) (f : Unit → TaskResult α),
        st.stop_ = false →
        ∃ st2 : PoolState α,
          ThreadPool.enqueue st f = Except.ok (st2, st.handles.length) ∧
          st2.tasks_ = st.tasks_ ++ [(st.handles.length, f)] ∧
          st2.handles[st.handles.length]? = some HandleState.pending ∧
          st2.completed = st.completed) ∧
    (∀ (α : Type) (st : PoolState α) (w id : Nat) (f : Unit → TaskResult α) (v : α),
        st.workers_[w]? = some (WorkerState.busy id f) →
        f () = Except.ok v →
        id < st.handles.length →
        (step st (Action.completeTask w)).handles[id]? =
          some (HandleState.fulfilled v)) ∧
    scenarioFinal.handles =
      (List.range 10).map (fun i => HandleState.fulfilled (taskMessage i)) := by
  refine ⟨?_, ?_, ?_⟩
  · intro α st f h
    refine ⟨{ st with
        tasks_ := st.tasks_ ++ [(st.handles.length, f)]
        handles := st.handles ++ [HandleState.pending]
        submitted := st.submitted ++ [st.handles.length] }, ?_, rfl, ?_, rfl⟩
    · simp [ThreadPool.enqueue, h]
    · exact List.getElem?_concat_length _ _
  · intro α st w id f v hb hf hid
    rw [step_complete_eq st w id f hb]
    show (publish st.handles id (f ()))[id]? = _
    rw [hf, publish_get? st.handles id (Except.ok v) hid]
  · rfl

/-- Concrete instance of `enqueue_returns_handle_resolving_to_result`: a
worker finishing `okBody` fulfills handle 0 with `"hi"`. -/
theorem enqueue_returns_handle_resolving_to_result_witness :
    busyPool.workers_[0]? = some (WorkerState.busy 0 okBody) ∧
      okBody () = Except.ok "hi" ∧ 0 < busyPool.handles.length ∧
      (step busyPool (Action.completeTask 0)).handles[0]? =
        some (HandleState.fulfilled "hi") :=
  ⟨rfl, rfl, by decide,
    enqueue_returns_handle_resolving_to_result.2.1 String busyPool 0 0 okBody "hi"
      rfl rfl (by decide)⟩

/-- Claim C4: a task body that raises a failure has that failure captured by
the executing worker and attached to its result handle (re-surfaced at
`get()`), the worker returns to the idle loop instead of terminating, and it
continues serving subsequent tasks, which still complete normally. -/
theorem task_failure_captured_worker_survives :
    (∀ (α : Type) (st : PoolState α) (w id : Nat) (f : Unit → TaskResult α) (e : String),
        st.workers_[w]? = some (WorkerState.busy id f) →
        f () = Except.error e →
        id < st.handles.length →
        (step st (Action.completeTask w)).handles[id]? =
            some (HandleState.failed e) ∧
          (step st (Action.completeTask w)).workers_[w]? = some WorkerState.idle ∧
          (step st (Action.completeTask w)).completed = st.completed ++ [id]) ∧
    (∀ (α : Type) (st : PoolState α) (w id2 : Nat) (g : Unit → TaskResult α) (v : α)
        (rest : List (Nat × (Unit → TaskResult α))),
        st.workers_[w]? = some WorkerState.idle →
        st.tasks_ = (id2, g) :: rest →
        g () = Except.ok v →
        id2 < st.handles.length →
        (runTrace st [Action.claimTask w, Action.completeTask w]).handles[id2]? =
          some (HandleState.fulfilled v)) := by
  refine ⟨?_, ?_⟩
  · intro α st w id f e hb hf hid
    rcases List.getElem?_eq_some.mp hb with ⟨hlt, -⟩
    rw [step_complete_eq st w id f hb]
    refine ⟨?_, ?_, rfl⟩
    · show (publish st.handles id (f ()))[id]? = _
      rw [hf, publish_get? st.handles id (Except.error e) hid]
    · exact List.getElem?_set_eq_of_lt _ hlt
  · intro α st w id2 g v rest hw ht hg hid
    rcases List.getElem?_eq_some.mp hw with ⟨hlt, -⟩
    show (step (step st (Action.claimTask w)) (Action.completeTask w)).handles[id2]? = _
    rw [step_claim_eq st w id2 g rest hw ht]
    rw [step_complete_eq _ w id2 g (List.getElem?_set_eq_of_lt _ hlt)]
    show (publish st.handles id2 (g ()))[id2]? = _
    rw [hg, publish_get? st.handles id2 (Except.ok v) hid]

/-- Concrete instance of `task_failure_captured_worker_survives`: worker 0
fails task 0 with `"boom"`, stays alive, then the queued task 1 still
completes with `"hi"`. -/
theorem task_failure_captured_worker_survives_witness :
    failThenOkPool.workers_[0]? = some (WorkerState.busy 0 failBody) ∧
      failBody () = Except.error "boom" ∧ 0 < failThenOkPool.handles.length ∧
      ((step failThenOkPool (Action.completeTask 0)).handles[0]? =
          some (HandleState.failed "boom") ∧
        (step failThenOkPool (Action.completeTask 0)).workers_[0]? =
          some WorkerState.idle ∧
        (step failThenOkPool (Action.completeTask 0)).completed =
          failThenOkPool.completed ++ [0]) ∧
      (runTrace (step failThenOkPool (Action.completeTask 0))
          [Action.claimTask 0, Action.completeTask 0]).handles[1]? =
        some (HandleState.fulfilled "hi") :=
  ⟨rfl, rfl, by decide,
    task_failure_captured_worker_survives.1 String failThenOkPool 0 0 failBody "boom"
      rfl rfl (by decide),
    task_failure_captured_worker_survives.2 String
      (step failThenOkPool (Action.completeTask 0)) 0 1 okBody "hi" []
      rfl rfl rfl (by decide)⟩

theorem busyIds_set_busy_perm {α : Type} (ws : List (WorkerState α)) (w id : Nat)
    (f : Unit → TaskResult α) (hw : ws[w]? = some WorkerState.idle) :
    List.Perm (busyIds (ws.set w (WorkerState.busy id f))) (id :: busyIds ws) := by
  induction ws generalizing w with
  | nil => simp at hw
  | cons x ws ih =>
      cases w with
      | zero =>
          simp at hw
          subst hw
          simp [busyIds]
      | succ n =>
          simp only [List.getElem?_cons_succ] at hw
          cases x with
          | idle => simpa [busyIds, List.set] using ih n hw
          | exited => simpa [busyIds, List.set] using ih n hw
          | busy j g =>
              simp only [List.set, busyIds]
              exact ((ih n hw).cons j).trans (List.Perm.swap id j _)

theorem busyIds_set_idle_perm {α : Type} (ws : List (WorkerState α)) (w id : Nat)
    (f : Unit → TaskResult α) (hw : ws[w]? = some (WorkerState.busy id f)) :
    List.Perm (id :: busyIds (ws.set w WorkerState.idle)) (busyIds ws) := by
  induction ws generalizing w with
  | nil => simp at hw
  | cons x ws ih =>
      cases w with
      | zero =>
          simp at hw
          subst hw
          simp [busyIds]
      | succ n =>
          simp only [List.getElem?_cons_succ] at hw
          cases x with
          | idle => simpa [busyIds, List.set] using ih n hw
          | exited => simpa [busyIds, List.set] using ih n hw
          | busy j g =>
              simp only [List.set, busyIds]
              exact (List.Perm.swap j id _).trans ((ih n hw).cons j)

theorem busyIds_set_exited_eq {α : Type} (ws : List (WorkerState α)) (w : Nat)
    (hw : ws[w]? = some WorkerState.idle) :
    busyIds (ws.set w WorkerState.exited) = busyIds ws := by
  induction ws generalizing w with
  | nil => simp at hw
  | cons x ws ih =>
      cases w with
      | zero =>
          simp at hw
          subst hw
          simp [busyIds]
      | succ n =>
          simp only [List.getElem?_cons_succ] at hw
          cases x with
          | idle => simp [busyIds, List.set, ih n hw]
          | exited => simp [busyIds, List.set, ih n hw]
          | busy j g => simp [busyIds, List.set, ih n hw]

theorem busyIds_replicate_idle {α : Type} (n : Nat) :
    busyIds (List.replicate n (WorkerState.idle : WorkerState α)) = [] := by
  induction n with
  | zero => rfl
  | succ n ih => simp [List.replicate, busyIds, ih]

theorem fifoInv_step_single {α : Type} (st : PoolState α) (w0 : WorkerState α)
    (hw : st.workers_ = [w0]) (h : fifoInv st) (a : Action α) :
    fifoInv (step st a) := by
  cases a with
  | enqueue f =>
      by_cases hstop : st.stop_
      · simpa [step, ThreadPool.enqueue, hstop] using h
      · simp only [fifoInv, ledger] at h ⊢
        simp [step, ThreadPool.enqueue, hstop, h]
  | claimTask w =>
      simp only [step]
      split
      · rename_i id f rest heq ht
        rw [hw] at heq
        simp only [fifoInv, ledger] at h ⊢
        cases w with
        | zero =>
            simp only [List.getElem?_cons_zero, Option.some.injEq] at heq
            subst heq
            rw [hw] at h ⊢
            simp only [busyIds] at h ⊢
            simp [List.set, busyIds, h, ht]
        | succ n => simp at heq
      · exact h
  | completeTask w =>
      simp only [step]
      split
      · rename_i id f heq
        rw [hw] at heq
        simp only [fifoInv, ledger] at h ⊢
        cases w with
        | zero =>
            simp only [List.getElem?_cons_zero, Option.some.injEq] at heq
            subst heq
            rw [hw] at h ⊢
            simp only [busyIds] at h ⊢
            simp [List.set, busyIds, h]
        | succ n => simp at heq
      · exact h
  | exitWorker w =>
      simp only [step]
      split
      · rename_i heq ht hstop
        rw [hw] at heq
        simp only [fifoInv, ledger] at h ⊢
        cases w with
        | zero =>
            simp only [List.getElem?_cons_zero, Option.some.injEq] at heq
            subst heq
            rw [hw] at h ⊢
            simp only [busyIds] at h ⊢
            simp [List.set, busyIds, h]
        | succ n => simp at heq
      · exact h
  | setStopFlag => simpa [step, fifoInv, ledger] using h

theorem fifoInv_runTrace_single {α : Type} (tr : List (Action α)) (st : PoolState α)
    (hw : st.workers_.length = 1) (h : fifoInv st) : fifoInv (runTrace st tr) := by
  induction tr generalizing st with
  | nil => exact h
  | cons a tr ih =>
      rcases List.length_eq_one.mp hw with ⟨w0, hw0⟩
      simp only [runTrace, List.foldl_cons]
      refine ih (step st a) ?_ (fifoInv_step_single st w0 hw0 h a)
      rw [workers_length_step]
      exact hw

/-- Claim C5: in a pool constructed with `thread_count = 1`, under every
interleaved execution the tasks complete in exactly the order they were
submitted: the completion history is always an initial segment of the
submission history. -/
theorem single_worker_fifo_completion_order :
    ∀ (α : Type) (hw : Nat) (tr : List (Action α)),
      ∃ rest : List Nat,
        (runTrace (ThreadPool.make α (some 1) hw) tr).submitted =
          (runTrace (ThreadPool.make α (some 1) hw) tr).completed ++ rest := by
  intro α hw tr
  have h0 : fifoInv (ThreadPool.make α (some 1) hw) := by
    simp [fifoInv, ledger, ThreadPool.make, busyIds_cons_idle, busyIds_nil]
  have h := fifoInv_runTrace_single tr (ThreadPool.make α (some 1) hw)
    (by simp [ThreadPool.make]) h0
  simp only [fifoInv, ledger] at h
  rw [List.append_assoc] at h
  exact ⟨_, h⟩

theorem ledger_enqueue {α : Type} (st : PoolState α) (f : Unit → TaskResult α)
    (hstop : st.stop_ = false) :
    ledger (step st (Action.enqueue f)) = ledger st ++ [st.handles.length] ∧
      (step st (Action.enqueue f)).submitted = st.submitted ++ [st.handles.length] ∧
      (step st (Action.enqueue f)).handles.length = st.handles.length + 1 := by
  refine ⟨?_, ?_, ?_⟩ <;> simp [ledger, step, ThreadPool.enqueue, hstop, List.append_assoc]

theorem onceInv_step {α : Type} (st : PoolState α) (h : onceInv st) (a : Action α) :
    onceInv (step st a) := by
  obtain ⟨hperm, hnd, hbound⟩ := h
  cases a with
  | enqueue f =>
      by_cases hstop : st.stop_
      · simpa [step, ThreadPool.enqueue, hstop] using And.intro hperm (And.intro hnd hbound)
      · obtain ⟨hled, hsub, hlen⟩ := ledger_enqueue st f (by simpa using hstop)
        have hfresh : st.handles.length ∉ st.submitted := by
          intro hmem
          have := hbound _ (hperm.mem_iff.mp hmem)
          omega
        refine ⟨?_, ?_, ?_⟩
        · rw [hled, hsub]
          exact hperm.append_right [st.handles.length]
        · rw [hsub]
          simp [List.nodup_append, hnd, hfresh]
        · intro id hid
          rw [hlen]
          rw [hled] at hid
          rcases List.mem_append.mp hid with hold | hnew
          · exact Nat.lt_succ_of_lt (hbound id hold)
          · simp at hnew
            omega
  | claimTask w =>
      simp only [step]
      split
      · rename_i id f rest heq ht
        have h1 : List.Perm
            (busyIds (st.workers_.set w (WorkerState.busy id f)) ++ List.map Prod.fst rest)
            (busyIds st.workers_ ++ id :: List.map Prod.fst rest) :=
          ((busyIds_set_busy_perm st.workers_ w id f heq).append_right _).trans
            List.perm_middle.symm
        have hledperm : List.Perm
            (ledger { st with
                workers_ := st.workers_.set w (WorkerState.busy id f)
                tasks_ := rest }) (ledger st) := by
          simp only [ledger, ht, List.map_cons, List.append_assoc]
          exact List.Perm.append_left _ h1
        exact ⟨hperm.trans hledperm.symm, hnd,
          fun id2 hid2 => hbound id2 (hledperm.mem_iff.mp hid2)⟩
      · exact ⟨hperm, hnd, hbound⟩
  | completeTask w =>
      simp only [step]
      split
      · rename_i id f heq
        have h1 : List.Perm
            ((id :: busyIds (st.workers_.set w WorkerState.idle)) ++
              List.map Prod.fst st.tasks_)
            (busyIds st.workers_ ++ List.map Prod.fst st.tasks_) :=
          (busyIds_set_idle_perm st.workers_ w id f heq).append_right _
        have hledperm : List.Perm
            (ledger { st with
                workers_ := st.workers_.set w WorkerState.idle
                handles := publish st.handles id (f ())
                completed := st.completed ++ [id] }) (ledger st) := by
          simp only [ledger, List.append_assoc]
          simp only [List.append_assoc] at h1
          simpa using List.Perm.append_left st.completed h1
        refine ⟨hperm.trans hledperm.symm, hnd, fun id2 hid2 => ?_⟩
        have hlen : (publish st.handles id (f ())).length = st.handles.length := by
          simp [publish]
        simp only [hlen]
        exact hbound id2 (hledperm.mem_iff.mp hid2)
      · exact ⟨hperm, hnd, hbound⟩
  | exitWorker w =>
      simp only [step]
      split
      · rename_i heq ht hstop
        have hled : ledger { st with workers_ := st.workers_.set w WorkerState.exited } =
            ledger st := by
          simp only [ledger, busyIds_set_exited_eq st.workers_ w heq]
        exact ⟨by rw [hled]; exact hperm, hnd, by rw [hled]; exact hbound⟩
      · exact ⟨hperm, hnd, hbound⟩
  | setStopFlag => exact ⟨hperm, hnd, hbound⟩

theorem onceInv_runTrace {α : Type} (tr : List (Action α)) (st : PoolState α)
    (h : onceInv st) : onceInv (runTrace st tr) := by
  induction tr generalizing st with
  | nil => exact h
  | cons a tr ih =>
      simp only [runTrace, List.foldl_cons]
      exact ih (step st a) (onceInv_step st h a)

theorem onceInv_make {α : Type} (tc : Option Nat) (hw : Nat) :
    onceInv (ThreadPool.make α tc hw) := by
  refine ⟨?_, ?_, ?_⟩ <;>
    simp [onceInv, ledger, ThreadPool.make, busyIds_replicate_idle]

/-- Claim C6: for every thread count and every interleaved execution, each
work item is executed at most once by exactly one worker and is never lost:
the completion history has no duplicates, the ledger (completed, claimed and
queued ids) accounts for each submission with exactly its submission count,
and no id is ever submitted twice - so no item is dequeued by two workers and
the pool performs no retries. -/
theorem task_executed_exactly_once_no_retries :
    ∀ (α : Type) (tc : Option Nat) (hw : Nat) (tr : List (Action α)),
      (runTrace (ThreadPool.make α tc hw) tr).completed.Nodup ∧
        (∀ id : Nat, (ledger (runTrace (ThreadPool.make α tc hw) tr)).count id =
          (runTrace (ThreadPool.make α tc hw) tr).submitted.count id) ∧
        (∀ id : Nat, (runTrace (ThreadPool.make α tc hw) tr).submitted.count id ≤ 1) := by
  intro α tc hw tr
  obtain ⟨hperm, hnd, hbound⟩ := onceInv_runTrace tr _ (onceInv_make tc hw)
  refine ⟨?_, ?_, ?_⟩
  · have hled : (ledger (runTrace (ThreadPool.make α tc hw) tr)).Nodup :=
      hperm.nodup_iff.mp hnd
    simp only [ledger] at hled
    exact ((List.sublist_append_left _ _).trans (List.sublist_append_left _ _)).nodup hled
  · intro id
    exact (hperm.count_eq id).symm
  · intro id
    exact List.nodup_iff_count_le_one.mp hnd id

end Embargo

